import Mathlib

/-!
Verification of the recovery-password core of dislocker
(src/accesses/rp/recovery_password.c).

The development shallowly embeds the C functions `valid_block`,
`is_valid_key`, `intermediate_key` (including its distillation loop),
`chain_hash` and `prompt_rp` as executable Lean functions over lists of
byte values (`List Nat`, each element a byte 0..255), and proves the
spec claims about them.

Machine integers are modelled with explicit wrap-around arithmetic:
a C `long` is an `Int` (64-bit range is only relevant to `strtol`
overflow, handled explicitly), `int8_t` casts truncate via `toInt8`,
`uint16_t` casts reduce modulo 65536, and the `uint64_t` counter of the
chain hash reduces modulo 2 ^ 64.  C `%` on signed operands is
`Int.tmod` (truncation toward zero) and C `/` is `Int.tdiv`.

The SHA-256 primitive is an external collaborator of this core; every
function that uses it takes an abstract `sha : List Nat → List Nat`
parameter.
-/

namespace Dislocker

/-! ## C character classification and strtol, as used by valid_block -/

/-- C `isspace` in the C locale: space, \t, \n, \v, \f, \r. -/
def isSpaceC (c : Nat) : Bool :=
  c = 32 || c = 9 || c = 10 || c = 11 || c = 12 || c = 13

/-- ASCII decimal digit test. -/
def isDigitC (c : Nat) : Bool := 48 ≤ c && c ≤ 57

/-- Value accumulated by `strtol` over the maximal leading digit run. -/
def digitsVal : List Nat → Int → Int
  | [], acc => acc
  | c :: rest, acc =>
    if isDigitC c then digitsVal rest (acc * 10 + ((c : Int) - 48)) else acc

/-- The raw (unclamped) value parsed by `strtol(s, NULL, 10)`: skip
whitespace, then an optional single sign, then the maximal digit run;
0 when no digit is found. -/
def strtolParse (s : List Nat) : Int :=
  match s.dropWhile (fun c => isSpaceC c) with
  | [] => 0
  | c :: rest =>
    if c = 43 then digitsVal rest 0
    else if c = 45 then - digitsVal rest 0
    else digitsVal (c :: rest) 0

def LONG_MAX : Int := 2 ^ 63 - 1

def LONG_MIN : Int := -(2 ^ 63)

/-- `strtol(s, NULL, 10)` on a 64-bit platform: the parsed value
together with the `errno == ERANGE` flag, clamping on overflow. -/
def strtol10 (s : List Nat) : Int × Bool :=
  let v := strtolParse s
  if v > LONG_MAX then (LONG_MAX, true)
  else if v < LONG_MIN then (LONG_MIN, true)
  else (v, false)

/-! ## valid_block (recovery_password.c lines 82-137) -/

/-- C cast of an `int` value to `int8_t` (two's-complement wrap into
[-128, 127], gcc semantics). -/
def toInt8 (x : Int) : Int := (x + 128) % 256 - 128

/-- Fuel-indexed unfolding of the C loop
`while (check_digit < 0) check_digit += 11;`.
`norm_go_while` below certifies that with fuel `r.natAbs` this computes
the loop's fixpoint, so `norm_neg11` is exactly the loop. -/
def norm_go : Nat → Int → Int
  | 0, r => r
  | k + 1, r => if r < 0 then norm_go k (r + 11) else r

/-- The while loop at recovery_password.c:119-120: repeatedly add 11
while the value is negative. -/
def norm_neg11 (r : Int) : Int := norm_go r.natAbs r

/-- The check digit computed at recovery_password.c:115-120:
`(int8_t)(digits[0] - digits[1] + digits[2] - digits[3] + digits[4] - 48) % 11`
followed by the add-11-while-negative normalization.  `digits` holds the
six raw characters of the block. -/
def check_digit (digits : List Nat) : Int :=
  norm_neg11 (Int.tmod
    (toInt8 ((digits.getD 0 0 : Int) - (digits.getD 1 0 : Int)
      + (digits.getD 2 0 : Int) - (digits.getD 3 0 : Int)
      + (digits.getD 4 0 : Int) - 48)) 11)

/-- `valid_block(digits, block_nb, short_password)` with a non-null
`digits` of six characters (NUL-terminated by the callers).
`some v` models a TRUE return emitting `v = (uint16_t)(block / 11)`
through a non-null out-parameter; `none` models FALSE.  The checks
appear in source order: ERANGE from strtol, divisibility by 11
(C `%` on `long` is truncation, `Int.tmod`), the `block >= 720896`
range test, and the check-digit comparison. -/
def valid_block (digits : List Nat) : Option Nat :=
  let r := strtol10 digits
  if r.2 then none
  else if Int.tmod r.1 11 ≠ 0 then none
  else if r.1 ≥ 720896 then none
  else if check_digit digits ≠ (digits.getD 5 0 : Int) - 48 then none
  else some ((Int.tdiv r.1 11) % 65536).toNat

/-! ## is_valid_key (recovery_password.c lines 148-186)

A C string argument is modelled as the list of its bytes before the
terminating NUL, so `strlen` is `List.length` and the list contains no
zero byte for genuine C-string inputs. -/

/-- The six bytes `memcpy`d for block number `i + 1`:
`rp + 7 * i` through `rp + 7 * i + 5` (stride 7 skips the separator). -/
def extract_block (rp : List Nat) (i : Nat) : List Nat :=
  (rp.drop (7 * i)).take 6

/-- The validation loop of `is_valid_key`, returning the 1-based number
of the first block rejected by `valid_block` (the loop returns FALSE
there, short-circuiting), or `none` when all remaining blocks pass.
The first argument of the recursion is the number of loop iterations
left, the second is the C loop counter `loop`. -/
def first_invalid_go (rp : List Nat) : Nat → Nat → Option Nat
  | 0, _ => none
  | n + 1, loop =>
    if (valid_block (extract_block rp loop)).isSome then
      first_invalid_go rp n (loop + 1)
    else some (loop + 1)

def first_invalid (rp : List Nat) : Option Nat := first_invalid_go rp 8 0

/-- `is_valid_key(recovery_password, short_password)` with non-null
arguments: FALSE when `strlen != 48 + 7`, otherwise TRUE iff all eight
blocks validate. -/
def is_valid_key (rp : List Nat) : Bool :=
  if rp.length ≠ 55 then false else (first_invalid rp).isNone

/-- The 1-based block numbers passed to `valid_block` during a run of
`is_valid_key`, in order (instrumentation of the same control flow:
the length check precedes the loop, and the loop stops at the first
invalid block). -/
def ivk_trace_go (rp : List Nat) : Nat → Nat → List Nat
  | 0, _ => []
  | n + 1, loop =>
    (loop + 1) ::
      (if (valid_block (extract_block rp loop)).isSome then
        ivk_trace_go rp n (loop + 1)
      else [])

def is_valid_key_trace (rp : List Nat) : List Nat :=
  if rp.length ≠ 55 then [] else ivk_trace_go rp 8 0

/-- The eight `uint16_t` values stored through `sp` by a successful run
of `is_valid_key` (on success every block is `some`, and slot `i` holds
the value emitted by `valid_block` for block `i + 1`). -/
def short_password (rp : List Nat) : List Nat :=
  (List.range 8).map (fun i => (valid_block (extract_block rp i)).getD 0)

/-! ## Distillation (intermediate_key, recovery_password.c lines 232-238) -/

/-- The little-endian packing loop of `intermediate_key`: for each
`uint16_t` element, byte `2 * i` is `passwd[i] & 0x00ff` and byte
`2 * i + 1` is `(passwd[i] & 0xff00) >> 8`. -/
def distill (passwd : List Nat) : List Nat :=
  (passwd.map (fun v => [v &&& 255, (v &&& 65280) >>> 8])).flatten

/-- Modelled from the spec: the inverse of distillation described in
spec section 8, reading byte `2 * i` as the low byte and byte
`2 * i + 1` as the high byte of word `i`.  There is no `undistill` in
the source; the spec asserts `undistill(distill(x)) == x`. -/
def undistill : List Nat → List Nat
  | lo :: hi :: rest => (lo + 256 * hi) :: undistill rest
  | _ => []

/-! ## chain_hash (recovery_password.c lines 41-71)

The struct `bitlocker_chain_hash_t` is declared in a header that is
not part of this repository snapshot; its layout is modelled from the
spec (section 3, Chain-Hash Working State): a 32-byte password hash,
a 16-byte salt, a 32-byte updated hash and an 8-byte little-endian
iteration counter, 88 bytes in all, with `SALT_LENGTH = 16`,
`SHA256_DIGEST_LENGTH = 32` and `0x100000` loop iterations as in the
source. -/

structure ChainHashState where
  password_hash : List Nat
  salt : List Nat
  updated_hash : List Nat
  hash_count : Nat

/-- Store a byte sequence into a fixed-size field of `n` bytes: keep
the first `n` bytes, zero-padding (the struct is `memset` to 0). -/
def fitBytes (n : Nat) (l : List Nat) : List Nat :=
  (l ++ List.replicate n 0).take n

/-- Modelled from the spec: the 8 bytes of the 64-bit counter field,
little-endian. -/
def u64le (n : Nat) : List Nat :=
  (List.range 8).map (fun i => (n >>> (8 * i)) % 256)

/-- Modelled from the spec: the 88 raw bytes of
`bitlocker_chain_hash_t` hashed by each loop iteration
(`SHA256((unsigned char *)ch, size, ch->updated_hash)`). -/
def serializeState (st : ChainHashState) : List Nat :=
  fitBytes 32 st.password_hash ++ fitBytes 16 st.salt
    ++ fitBytes 32 st.updated_hash ++ u64le st.hash_count

/-- One iteration of the loop at recovery_password.c:58-63: hash the
full struct into `updated_hash`, then increment the 64-bit counter. -/
def chain_step (sha : List Nat → List Nat) (st : ChainHashState) : ChainHashState :=
  { st with
    updated_hash := fitBytes 32 (sha (serializeState st)),
    hash_count := (st.hash_count + 1) % 2 ^ 64 }

/-- The `for (loop = 0; loop < 0x100000; ++loop)` loop, by remaining
iteration count. -/
def chain_loop (sha : List Nat → List Nat) : Nat → ChainHashState → ChainHashState
  | 0, st => st
  | n + 1, st => chain_loop sha n (chain_step sha st)

/-- The struct contents after the `memset`, the initial
`SHA256(recovery_key, 16, ch->password_hash)` (which hashes exactly the
16 distilled bytes) and the `memcpy` of the 16-byte salt. -/
def chain_init (sha : List Nat → List Nat) (recovery_key salt : List Nat) :
    ChainHashState :=
  { password_hash := fitBytes 32 (sha (fitBytes 16 recovery_key)),
    salt := fitBytes 16 salt,
    updated_hash := List.replicate 32 0,
    hash_count := 0 }

/-- `chain_hash(recovery_key, salt, result)`: the 32 bytes copied into
`result` after 0x100000 = 1048576 loop iterations (the function itself
always returns TRUE). -/
def chain_hash (sha : List Nat → List Nat) (recovery_key salt : List Nat) :
    List Nat :=
  fitBytes 32 (chain_loop sha 1048576 (chain_init sha recovery_key salt)).updated_hash

/-- The inputs passed to SHA-256 by the loop of `chain_hash`, in order
(instrumentation of the same iteration structure). -/
def chain_trace (sha : List Nat → List Nat) : Nat → ChainHashState → List (List Nat)
  | 0, _ => []
  | n + 1, st => serializeState st :: chain_trace sha n (chain_step sha st)

/-! ## The KDF as written in the spec (section 4.4), for refinement -/

/-- Modelled from the spec, step 3 of section 4.4: repeat
`updated_hash = SHA-256(concat(running_hash, salt, updated_hash,
counter))` then `counter += 1`, with a 64-bit counter.  The updated
hash and the counter are threaded as the two accumulator arguments;
the final updated hash is returned. -/
def derive_iter (sha : List Nat → List Nat) (running salt : List Nat) :
    Nat → List Nat → Nat → List Nat
  | 0, u, _ => u
  | n + 1, u, c =>
    derive_iter sha running salt n
      (fitBytes 32 (sha (running ++ salt ++ fitBytes 32 u ++ u64le c)))
      ((c + 1) % 2 ^ 64)

/-- Modelled from the spec, section 4.4: `h0 = SHA-256(distilled)`
hashing only the 16 distilled bytes; running hash `h0`, updated hash 32
zero bytes, counter 0; exactly 1048576 iterations; the final updated
hash is the intermediate key. -/
def derive_spec (sha : List Nat → List Nat) (distilled salt : List Nat) :
    List Nat :=
  derive_iter sha (fitBytes 32 (sha (fitBytes 16 distilled))) (fitBytes 16 salt)
    1048576 (List.replicate 32 0) 0

/-! ## intermediate_key (recovery_password.c lines 197-255) -/

/-- `intermediate_key(recovery_password, salt, result_key)` where the
two checked pointer arguments are `Option`s (`none` models NULL) and
the returned pair is (status, final contents of the `result_key`
buffer).  On every FALSE path the function returns before `chain_hash`,
so the buffer keeps its prior contents; on success `chain_hash` fills
it from the distilled short password. -/
def intermediate_key (sha : List Nat → List Nat)
    (recovery_password : Option (List Nat)) (salt : List Nat)
    (result_key : Option (List Nat)) : Bool × Option (List Nat) :=
  match recovery_password with
  | none => (false, result_key)
  | some rp =>
    match result_key with
    | none => (false, none)
    | some res =>
      if is_valid_key rp then
        (true, some (chain_hash sha (distill (short_password rp)) salt))
      else (false, some res)

/-! ## prompt_rp (recovery_password.c lines 264-394)

The interactive state machine, with the raw terminal reads replaced by
a scripted list of input bytes.  `none` models the FALSE return taken
when the stream ends (or `select`/`read` fail) before eight valid
blocks are committed; `some s` models the TRUE return with `*rp = s`.

State variables follow the C locals: `block_nb` (1-based), `idx` (the
cursor inside the current block), `digits` (the `idx` characters typed
so far in the current block; the C array is NUL-terminated at `idx`)
and `acc` (the committed prefix written at `*rp`, blocks joined by
hyphens).  In every reachable state `0 ≤ idx ≤ 5` holds at the top of
the loop, so the C guard `idx <= NB_DIGIT_BLOC` is always true and the
`idx` underflow to -1 during backspace handling is transient; the
branches below reproduce the net effect of each iteration.  Backspacing
across a block boundary re-reads the previous block with
`snprintf(digits, 6, "%s", blah)`, which keeps only its first five
characters, and truncates the committed string before that block. -/

def prompt_run : List Nat → Nat → Nat → List Nat → List Nat →
    Option (List Nat)
  | [], _, _, _, _ => none
  | c :: rest, block_nb, idx, digits, acc =>
    if c = 45 then
      prompt_run rest block_nb idx digits acc
    else if c = 8 ∨ c = 127 then
      if idx = 0 then
        if block_nb > 1 then
          prompt_run rest (block_nb - 1) 5
            ((acc.drop (acc.length - 7)).take 5) (acc.take (acc.length - 7))
        else prompt_run rest block_nb 0 [] acc
      else prompt_run rest block_nb (idx - 1) (digits.take (idx - 1)) acc
    else if isDigitC c then
      if idx + 1 ≥ 6 then
        if (valid_block (digits ++ [c])).isSome then
          if block_nb ≥ 8 then some (acc ++ digits ++ [c])
          else prompt_run rest (block_nb + 1) 0 [] (acc ++ digits ++ [c] ++ [45])
        else prompt_run rest block_nb 0 [] acc
      else prompt_run rest block_nb (idx + 1) (digits ++ [c]) acc
    else prompt_run rest block_nb idx digits acc

/-- `prompt_rp(rp)` with a non-null argument, fed the scripted bytes. -/
def prompt_rp (input : List Nat) : Option (List Nat) :=
  prompt_run input 1 0 [] []

/-! ## Spec-side definitions for the block claims -/

/-- The integer value of a 6-character ASCII digit string, as the spec
reads it. -/
def digit_string_val (d : List Nat) : Nat :=
  d.foldl (fun acc c => acc * 10 + (c - 48)) 0

/-- Modelled from the spec: the expected check digit
`(d0 - d1 + d2 - d3 + d4) mod 11` over the digit values, normalized
into [0, 10] (mathematical modulus). -/
def spec_check_digit (d : List Nat) : Int :=
  (((d.getD 0 0 : Int) - 48) - ((d.getD 1 0 : Int) - 48)
    + ((d.getD 2 0 : Int) - 48) - ((d.getD 3 0 : Int) - 48)
    + ((d.getD 4 0 : Int) - 48)) % 11

/-! ## Helper lemmas -/

theorem norm_go_of_nonneg (k : Nat) (r : Int) (h : 0 ≤ r) : norm_go k r = r := by
  cases k with
  | zero => rfl
  | succ k => simp only [norm_go, if_neg (by omega : ¬ r < 0)]

theorem norm_go_add (k : Nat) : ∀ (j : Nat) (r : Int), -r ≤ 11 * k →
    norm_go (k + j) r = norm_go k r := by
  induction k with
  | zero =>
    intro j r h
    rw [norm_go_of_nonneg, norm_go_of_nonneg] <;> omega
  | succ k ih =>
    intro j r h
    by_cases hr : r < 0
    · have hstep : k + 1 + j = (k + j) + 1 := by omega
      rw [hstep]
      simp only [norm_go, if_pos hr]
      exact ih j (r + 11) (by omega)
    · rw [norm_go_of_nonneg, norm_go_of_nonneg] <;> omega

theorem norm_go_fuel_irrel (k k' : Nat) (r : Int) (hk : -r ≤ 11 * k)
    (hk' : -r ≤ 11 * k') : norm_go k r = norm_go k' r := by
  rcases Nat.le_total k k' with h | h
  · obtain ⟨j, rfl⟩ := Nat.le.dest h
    exact (norm_go_add k j r hk).symm
  · obtain ⟨j, rfl⟩ := Nat.le.dest h
    exact norm_go_add k' j r hk'

/-- Certificate that `norm_neg11` computes the C `while` loop: it
satisfies the loop's defining unfolding equation (and terminates, being
a total function). -/
theorem norm_neg11_while (r : Int) :
    norm_neg11 r = if r < 0 then norm_neg11 (r + 11) else r := by
  by_cases hr : r < 0
  · rw [if_pos hr]
    unfold norm_neg11
    have h1 : r.natAbs = (r.natAbs - 1) + 1 := by omega
    rw [h1]
    simp only [norm_go, if_pos hr]
    exact norm_go_fuel_irrel _ _ _ (by omega) (by omega)
  · rw [if_neg hr]
    exact norm_go_of_nonneg _ _ (by omega)

set_option maxRecDepth 4096 in
/-- On the values reachable from `valid_block` (a truncated `% 11` of
an `int8_t`), the add-11-while-negative loop computes the mathematical
modulus. -/
theorem norm_neg11_tmod_eq_emod : ∀ n : Nat, n < 256 →
    norm_neg11 (Int.tmod ((n : Int) - 128) 11) = ((n : Int) - 128) % 11 := by
  decide

/-- C truncation toward zero: `Int.tmod (-a) b = -(Int.tmod a b)`. -/
theorem tmod_neg_left (a b : Int) : Int.tmod (-a) b = - Int.tmod a b := by
  simp [Int.tmod_def, Int.neg_tdiv, Int.mul_neg]
  ring

theorem toInt8_bounds (x : Int) : -128 ≤ toInt8 x ∧ toInt8 x ≤ 127 := by
  unfold toInt8
  omega

theorem toInt8_eq_of_bounds (x : Int) (h1 : -128 ≤ x) (h2 : x ≤ 127) :
    toInt8 x = x := by
  unfold toInt8
  omega

theorem norm_neg11_tmod_toInt8 (x : Int) :
    norm_neg11 (Int.tmod (toInt8 x) 11) = toInt8 x % 11 := by
  have hb := toInt8_bounds x
  have h := norm_neg11_tmod_eq_emod (toInt8 x + 128).toNat (by omega)
  have hx : ((toInt8 x + 128).toNat : Int) - 128 = toInt8 x := by omega
  rwa [hx] at h

theorem list_len_six {α : Type} (l : List α) (h : l.length = 6) :
    ∃ a b c d e f, l = [a, b, c, d, e, f] := by
  rcases l with _ | ⟨a, _ | ⟨b, _ | ⟨c, _ | ⟨d, _ | ⟨e, _ | ⟨f, _ | ⟨g, t⟩⟩⟩⟩⟩⟩⟩
  all_goals simp only [List.length] at h
  all_goals first
    | omega
    | exact ⟨a, b, c, d, e, f, rfl⟩

theorem list_len_eight {α : Type} (l : List α) (h : l.length = 8) :
    ∃ a b c d e f g i, l = [a, b, c, d, e, f, g, i] := by
  rcases l with _ | ⟨a, _ | ⟨b, _ | ⟨c, _ | ⟨d, _ | ⟨e, _ | ⟨f, _ | ⟨g, _ | ⟨i, _ | ⟨j, t⟩⟩⟩⟩⟩⟩⟩⟩⟩
  all_goals simp only [List.length] at h
  all_goals first
    | omega
    | exact ⟨a, b, c, d, e, f, g, i, rfl⟩

theorem digitsVal_nonneg : ∀ (l : List Nat) (acc : Int), 0 ≤ acc →
    0 ≤ digitsVal l acc := by
  intro l
  induction l with
  | nil => intro acc h; simpa [digitsVal] using h
  | cons c rest ih =>
    intro acc h
    by_cases hc : isDigitC c = true
    · have h48 : 48 ≤ c := by
        simp [isDigitC] at hc
        omega
      simp only [digitsVal, if_pos hc]
      exact ih _ (by omega)
    · simpa [digitsVal, hc] using h

theorem digitsVal_lt : ∀ (l : List Nat) (acc : Int), 0 ≤ acc →
    digitsVal l acc < (acc + 1) * 10 ^ l.length := by
  intro l
  induction l with
  | nil => intro acc h; simp [digitsVal]
  | cons c rest ih =>
    intro acc h
    by_cases hc : isDigitC c = true
    · have h57 : 48 ≤ c ∧ c ≤ 57 := by
        simp [isDigitC] at hc
        omega
      simp only [digitsVal, if_pos hc, List.length_cons]
      calc digitsVal rest (acc * 10 + ((c : Int) - 48))
          < (acc * 10 + ((c : Int) - 48) + 1) * 10 ^ rest.length :=
            ih _ (by omega)
        _ ≤ ((acc + 1) * 10) * 10 ^ rest.length := by
            have : acc * 10 + ((c : Int) - 48) + 1 ≤ (acc + 1) * 10 := by
              omega
            exact mul_le_mul_of_nonneg_right this (by positivity)
        _ = (acc + 1) * 10 ^ (rest.length + 1) := by ring
    · simp only [digitsVal, hc, if_false, Bool.false_eq_true, List.length_cons]
      have h1 : (0 : Int) < 10 ^ (rest.length + 1) := by positivity
      nlinarith

theorem digitsVal_lt_pow (l : List Nat) : digitsVal l 0 < 10 ^ l.length := by
  have := digitsVal_lt l 0 le_rfl
  simpa using this

theorem strtolParse_eq_nil {s : List Nat}
    (hw : s.dropWhile (fun c => isSpaceC c) = []) : strtolParse s = 0 := by
  unfold strtolParse
  rw [hw]

theorem strtolParse_eq_cons {s : List Nat} {c : Nat} {rest : List Nat}
    (hw : s.dropWhile (fun c => isSpaceC c) = c :: rest) :
    strtolParse s = if c = 43 then digitsVal rest 0
      else if c = 45 then - digitsVal rest 0
      else digitsVal (c :: rest) 0 := by
  unfold strtolParse
  rw [hw]

theorem strtolParse_bound (s : List Nat) (h : s.length ≤ 6) :
    -(10 ^ 6) < strtolParse s ∧ strtolParse s < 10 ^ 6 := by
  have hgen : ∀ l : List Nat, l.length ≤ 6 → digitsVal l 0 < 10 ^ 6 := by
    intro l hl
    calc digitsVal l 0 < 10 ^ l.length := digitsVal_lt_pow l
      _ ≤ 10 ^ 6 := by exact pow_le_pow_right₀ (by norm_num) hl
  have hnn : ∀ l : List Nat, 0 ≤ digitsVal l 0 := fun l => digitsVal_nonneg l 0 le_rfl
  have hd : (s.dropWhile (fun c => isSpaceC c)).length ≤ 6 :=
    le_trans (List.dropWhile_sublist _).length_le h
  rcases hw : s.dropWhile (fun c => isSpaceC c) with _ | ⟨c, rest⟩
  · rw [strtolParse_eq_nil hw]
    norm_num
  · rw [strtolParse_eq_cons hw]
    rw [hw] at hd
    simp only [List.length_cons] at hd
    have hr6 : rest.length ≤ 6 := by omega
    by_cases h43 : c = 43
    · rw [if_pos h43]
      have := hgen rest hr6
      have := hnn rest
      constructor <;> omega
    · by_cases h45 : c = 45
      · rw [if_neg h43, if_pos h45]
        have := hgen rest hr6
        have := hnn rest
        constructor <;> omega
      · rw [if_neg h43, if_neg h45]
        have := hgen (c :: rest) (by simpa using hd)
        have := hnn (c :: rest)
        constructor <;> omega

theorem strtol10_no_erange (s : List Nat) (h : s.length ≤ 6) :
    strtol10 s = (strtolParse s, false) := by
  have hb := strtolParse_bound s h
  unfold strtol10 LONG_MAX LONG_MIN
  rw [if_neg (by omega), if_neg (by omega)]

theorem valid_block_char (d : List Nat) (h6 : d.length = 6) :
    valid_block d =
      if Int.tmod (strtolParse d) 11 ≠ 0 then none
      else if strtolParse d ≥ 720896 then none
      else if check_digit d ≠ (d.getD 5 0 : Int) - 48 then none
      else some ((Int.tdiv (strtolParse d) 11) % 65536).toNat := by
  simp only [valid_block, strtol10_no_erange d (by omega), Bool.false_eq_true,
    if_false]

theorem strtolParse_digits {a0 a1 a2 a3 a4 a5 : Nat}
    (h0 : 48 ≤ a0 ∧ a0 ≤ 57) (h1 : 48 ≤ a1 ∧ a1 ≤ 57) (h2 : 48 ≤ a2 ∧ a2 ≤ 57)
    (h3 : 48 ≤ a3 ∧ a3 ≤ 57) (h4 : 48 ≤ a4 ∧ a4 ≤ 57) (h5 : 48 ≤ a5 ∧ a5 ≤ 57) :
    strtolParse [a0, a1, a2, a3, a4, a5] =
      ((a0 : Int) - 48) * 100000 + ((a1 : Int) - 48) * 10000
        + ((a2 : Int) - 48) * 1000 + ((a3 : Int) - 48) * 100
        + ((a4 : Int) - 48) * 10 + ((a5 : Int) - 48) := by
  have hs : isSpaceC a0 = false := by
    simp [isSpaceC]
    omega
  have hw : List.dropWhile (fun c => isSpaceC c) [a0, a1, a2, a3, a4, a5]
      = a0 :: [a1, a2, a3, a4, a5] := by
    simp [List.dropWhile_cons, hs]
  rw [strtolParse_eq_cons hw, if_neg (by omega), if_neg (by omega)]
  have d0 : isDigitC a0 = true := by simp [isDigitC]; omega
  have d1 : isDigitC a1 = true := by simp [isDigitC]; omega
  have d2 : isDigitC a2 = true := by simp [isDigitC]; omega
  have d3 : isDigitC a3 = true := by simp [isDigitC]; omega
  have d4 : isDigitC a4 = true := by simp [isDigitC]; omega
  have d5 : isDigitC a5 = true := by simp [isDigitC]; omega
  simp only [digitsVal, d0, d1, d2, d3, d4, d5, if_true]
  ring

theorem digit_string_val_cast {a0 a1 a2 a3 a4 a5 : Nat}
    (h0 : 48 ≤ a0 ∧ a0 ≤ 57) (h1 : 48 ≤ a1 ∧ a1 ≤ 57) (h2 : 48 ≤ a2 ∧ a2 ≤ 57)
    (h3 : 48 ≤ a3 ∧ a3 ≤ 57) (h4 : 48 ≤ a4 ∧ a4 ≤ 57) (h5 : 48 ≤ a5 ∧ a5 ≤ 57) :
    (digit_string_val [a0, a1, a2, a3, a4, a5] : Int) =
      ((a0 : Int) - 48) * 100000 + ((a1 : Int) - 48) * 10000
        + ((a2 : Int) - 48) * 1000 + ((a3 : Int) - 48) * 100
        + ((a4 : Int) - 48) * 10 + ((a5 : Int) - 48) := by
  simp only [digit_string_val, List.foldl]
  omega

/-- On an all-digit block the raw check-digit computation over the
character codes equals the spec formula over the digit values. -/
theorem check_digit_of_digits (a0 a1 a2 a3 a4 a5 : Nat)
    (h0 : 48 ≤ a0 ∧ a0 ≤ 57) (h1 : 48 ≤ a1 ∧ a1 ≤ 57) (h2 : 48 ≤ a2 ∧ a2 ≤ 57)
    (h3 : 48 ≤ a3 ∧ a3 ≤ 57) (h4 : 48 ≤ a4 ∧ a4 ≤ 57) :
    check_digit [a0, a1, a2, a3, a4, a5] = spec_check_digit [a0, a1, a2, a3, a4, a5] := by
  unfold check_digit spec_check_digit
  simp only [List.getD_cons_zero, List.getD_cons_succ]
  rw [norm_neg11_tmod_toInt8,
    toInt8_eq_of_bounds _ (by omega) (by omega)]
  congr 1
  ring

/-! ## C1 -/

/-- C1: for every 6-character ASCII digit string `d`, `valid_block d`
succeeds iff the integer value of `d` is divisible by 11, is strictly
less than 720896, and the 6th digit equals
`(d0 - d1 + d2 - d3 + d4) mod 11` normalized into [0, 10]; on success
(with a non-null out-parameter) it emits `value / 11` as the short
value. -/
theorem c1_valid_block_digit_iff (d : List Nat) (hlen : d.length = 6)
    (hdig : ∀ c ∈ d, 48 ≤ c ∧ c ≤ 57) :
    ((valid_block d).isSome = true ↔
      (digit_string_val d % 11 = 0 ∧ digit_string_val d < 720896 ∧
        (d.getD 5 0 : Int) - 48 = spec_check_digit d)) ∧
    (∀ n, valid_block d = some n → n = digit_string_val d / 11) := by
  obtain ⟨a0, a1, a2, a3, a4, a5, rfl⟩ := list_len_six d hlen
  have h0 := hdig a0 (by simp)
  have h1 := hdig a1 (by simp)
  have h2 := hdig a2 (by simp)
  have h3 := hdig a3 (by simp)
  have h4 := hdig a4 (by simp)
  have h5 := hdig a5 (by simp)
  have hV := strtolParse_digits h0 h1 h2 h3 h4 h5
  have hN := digit_string_val_cast h0 h1 h2 h3 h4 h5
  have hVN : strtolParse [a0, a1, a2, a3, a4, a5]
      = ((digit_string_val [a0, a1, a2, a3, a4, a5] : Nat) : Int) := by
    rw [hV, hN]
  have htmod : Int.tmod ((digit_string_val [a0, a1, a2, a3, a4, a5] : Nat) : Int) 11
      = ((digit_string_val [a0, a1, a2, a3, a4, a5] : Nat) : Int) % 11 :=
    Int.tmod_eq_emod (Int.natCast_nonneg _) (by norm_num)
  have hcheck := check_digit_of_digits a0 a1 a2 a3 a4 a5 h0 h1 h2 h3 h4
  have htdiv : Int.tdiv ((digit_string_val [a0, a1, a2, a3, a4, a5] : Nat) : Int) 11
      = ((digit_string_val [a0, a1, a2, a3, a4, a5] / 11 : Nat) : Int) := rfl
  rw [valid_block_char _ (by simp), hVN, htmod, hcheck, htdiv]
  constructor
  · split_ifs with hA hB hC
    · simp only [Option.isSome_none, Bool.false_eq_true, false_iff, not_and]
      intro hx
      omega
    · simp only [Option.isSome_none, Bool.false_eq_true, false_iff, not_and]
      intro _ hx
      omega
    · simp only [Option.isSome_none, Bool.false_eq_true, false_iff, not_and]
      intro _ _ hx
      exact hC hx.symm
    · simp only [Option.isSome_some, true_iff]
      refine ⟨by omega, by omega, (not_ne_iff.mp hC).symm⟩
  · intro n hn
    split_ifs at hn with hA hB hC
    all_goals simp only [Option.some.injEq, reduceCtorEq] at hn
    subst hn
    omega

/-- Witness for C1 at the concrete valid block "000110"
(value 110 = 10 * 11, check digit 0). -/
theorem c1_witness :
    (valid_block [48, 48, 48, 49, 49, 48]).isSome = true := by
  exact (c1_valid_block_digit_iff [48, 48, 48, 49, 49, 48] (by decide)
    (by decide)).1.mpr (by refine ⟨?_, ?_, ?_⟩ <;> decide)

/-! ## C3 -/

/-- C3 counterexample: the 6-character string "AA0000" contains
non-digit characters, yet `valid_block` accepts it and emits short
value 0: `strtol` finds no digit and returns 0 without error, 0 is
divisible by 11 and in range, and the raw-character checksum matches.
The claim that no 6-character string containing a non-digit character
is ever accepted is therefore false. -/
theorem c3_counterexample :
    isDigitC 65 = false ∧ valid_block [65, 65, 48, 48, 48, 48] = some 0 := by
  decide

/-- C3 amended: the parse step of `valid_block` fails only when
`strtol` reports ERANGE, which can never happen for a 6-character
block; non-digit characters do not by themselves cause a parse failure,
and acceptance is determined solely by the three subsequent checks
(divisibility by 11, range, check digit) applied to the
`strtol`-parsed value and the raw characters. -/
theorem c3_amended_no_parse_error (d : List Nat) (hlen : d.length = 6) :
    (strtol10 d).2 = false ∧
    ((valid_block d).isSome = true ↔
      (Int.tmod (strtol10 d).1 11 = 0 ∧ (strtol10 d).1 < 720896 ∧
        check_digit d = (d.getD 5 0 : Int) - 48)) := by
  have he := strtol10_no_erange d (by omega)
  rw [he]
  refine ⟨rfl, ?_⟩
  rw [valid_block_char d hlen]
  split_ifs with hA hB hC
  · simp only [Option.isSome_none, Bool.false_eq_true, false_iff, not_and]
    intro hx
    exact absurd hx hA
  · simp only [Option.isSome_none, Bool.false_eq_true, false_iff, not_and]
    intro _ hx
    omega
  · simp only [Option.isSome_none, Bool.false_eq_true, false_iff, not_and]
    intro _ _ hx
    exact hC hx
  · simp only [Option.isSome_some, true_iff]
    exact ⟨not_ne_iff.mp hA, by omega, not_ne_iff.mp hC⟩

/-- Witness for the amended C3 at the block "000110". -/
theorem c3_witness :
    (strtol10 [48, 48, 48, 49, 49, 48]).2 = false ∧
    (valid_block [48, 48, 48, 49, 49, 48]).isSome = true := by
  refine ⟨(c3_amended_no_parse_error [48, 48, 48, 49, 49, 48] (by decide)).1, ?_⟩
  exact (c3_amended_no_parse_error [48, 48, 48, 49, 49, 48] (by decide)).2.mpr
    (by refine ⟨?_, ?_, ?_⟩ <;> decide)

/-! ## C8 -/

/-- C8 counterexample: `valid_block` accepts the 6-character string
"-11AD0", whose `strtol` value is -11 (divisible by 11, less than
720896, raw-character checksum 0 matching the final '0'); the emitted
short value is `(uint16_t)(-11 / 11) = 65535`, but the block integer
value divided by 11 is -1, which does not fit in an unsigned 16-bit
integer.  The range check alone does not guarantee the claimed fit. -/
theorem c8_counterexample :
    valid_block [45, 49, 49, 65, 68, 48] = some 65535 ∧
    (strtol10 [45, 49, 49, 65, 68, 48]).1 = -11 ∧
    Int.tdiv (-11) 11 = -1 := by
  decide

/-- C8 amended: for every accepted block whose `strtol` value is
nonnegative (in particular every all-digit block), the emitted short
value equals the block value divided by 11 and fits in an unsigned
16-bit integer, because the range check guarantees the value is
strictly less than 720896 = 2^16 * 11 before the conversion. -/
theorem c8_short_value_fits (d : List Nat) (hlen : d.length = 6)
    (hnn : 0 ≤ (strtol10 d).1) (n : Nat) (hacc : valid_block d = some n) :
    (n : Int) = Int.tdiv (strtol10 d).1 11 ∧ n < 65536 := by
  have he := strtol10_no_erange d (by omega)
  rw [he] at hnn ⊢
  simp only at hnn ⊢
  rw [valid_block_char d hlen] at hacc
  split_ifs at hacc with hA hB hC
  simp only [Option.some.injEq] at hacc
  rw [Int.tdiv_eq_ediv hnn (by norm_num)] at hacc ⊢
  omega

/-- Witness for the amended C8 at the block "000110" (value 110,
emitted short value 10). -/
theorem c8_witness :
    ((10 : Nat) : Int) = Int.tdiv (strtol10 [48, 48, 48, 49, 49, 48]).1 11 ∧
    (10 : Nat) < 65536 :=
  c8_short_value_fits [48, 48, 48, 49, 49, 48] (by decide) (by decide) 10 (by decide)

/-! ## C7 -/

/-- C7: `is_valid_key` rejects every input whose length is not exactly
55 characters immediately, and no block is ever passed to `valid_block`
(the examined-blocks trace is empty). -/
theorem c7_length_check (p : List Nat) (h : p.length ≠ 55) :
    is_valid_key p = false ∧ is_valid_key_trace p = [] := by
  simp [is_valid_key, is_valid_key_trace, h]

/-- Witness for C7 at lengths 54 and 56. -/
theorem c7_witness :
    (is_valid_key (List.replicate 54 48) = false ∧
      is_valid_key_trace (List.replicate 54 48) = []) ∧
    (is_valid_key (List.replicate 56 48) = false ∧
      is_valid_key_trace (List.replicate 56 48) = []) :=
  ⟨c7_length_check _ (by decide), c7_length_check _ (by decide)⟩

/-! ## C9 -/

/-- C9: whenever `intermediate_key` fails (null arguments or an invalid
recovery password), the output key buffer is left completely untouched;
it is written only on the success path after the KDF completes. -/
theorem c9_no_partial_output (sha : List Nat → List Nat)
    (recovery_password : Option (List Nat)) (salt : List Nat)
    (result_key : Option (List Nat))
    (h : (intermediate_key sha recovery_password salt result_key).1 = false) :
    (intermediate_key sha recovery_password salt result_key).2 = result_key := by
  cases recovery_password with
  | none => rfl
  | some rp =>
    cases result_key with
    | none => rfl
    | some res =>
      by_cases hv : is_valid_key rp = true
      · exfalso
        simp [intermediate_key, hv] at h
      · simp [intermediate_key, hv]

/-- Witness for C9: a NULL recovery password leaves a pre-filled output
buffer unchanged. -/
theorem c9_witness :
    (intermediate_key (fun _ => List.replicate 32 0) none [] (some [7])).2
      = some [7] :=
  c9_no_partial_output (fun _ => List.replicate 32 0) none [] (some [7]) (by decide)

/-! ## C4 -/

theorem and_div_pow (a b : Nat) : ∀ k, (a &&& b) / 2 ^ k = a / 2 ^ k &&& b / 2 ^ k := by
  intro k
  induction k with
  | zero => simp
  | succ k ih =>
    rw [pow_succ, ← Nat.div_div_eq_div_mul, ih, Nat.and_div_two,
      Nat.div_div_eq_div_mul, Nat.div_div_eq_div_mul, ← pow_succ]

theorem low_byte (v : Nat) : v &&& 255 = v % 256 := by
  have h := Nat.and_pow_two_sub_one_eq_mod v 8
  norm_num at h
  exact h

theorem high_byte (v : Nat) (h : v < 65536) : (v &&& 65280) >>> 8 = v / 256 := by
  have h1 : (v &&& 65280) >>> 8 = (v &&& 65280) / 2 ^ 8 := Nat.shiftRight_eq_div_pow _ _
  rw [h1, and_div_pow]
  norm_num
  rw [low_byte]
  omega

/-- C4: distillation packs each 16-bit short-password word
little-endian (byte 2i the low byte, byte 2i+1 the high byte), and the
inverse `undistill` recovers the original 8-element array. -/
theorem c4_distill_bijection (x : List Nat) (hlen : x.length = 8)
    (hb : ∀ v ∈ x, v < 65536) :
    undistill (distill x) = x ∧ (distill x).length = 16 ∧
    (∀ i, i < 8 → (distill x).getD (2 * i) 0 = x.getD i 0 % 256 ∧
      (distill x).getD (2 * i + 1) 0 = x.getD i 0 / 256) := by
  obtain ⟨v0, v1, v2, v3, v4, v5, v6, v7, rfl⟩ := list_len_eight x hlen
  have b0 := hb v0 (by simp)
  have b1 := hb v1 (by simp)
  have b2 := hb v2 (by simp)
  have b3 := hb v3 (by simp)
  have b4 := hb v4 (by simp)
  have b5 := hb v5 (by simp)
  have b6 := hb v6 (by simp)
  have b7 := hb v7 (by simp)
  have hd2 : distill [v0, v1, v2, v3, v4, v5, v6, v7] =
      [v0 % 256, v0 / 256, v1 % 256, v1 / 256, v2 % 256, v2 / 256,
        v3 % 256, v3 / 256, v4 % 256, v4 / 256, v5 % 256, v5 / 256,
        v6 % 256, v6 / 256, v7 % 256, v7 / 256] := by
    show [v0 &&& 255, (v0 &&& 65280) >>> 8, v1 &&& 255, (v1 &&& 65280) >>> 8,
        v2 &&& 255, (v2 &&& 65280) >>> 8, v3 &&& 255, (v3 &&& 65280) >>> 8,
        v4 &&& 255, (v4 &&& 65280) >>> 8, v5 &&& 255, (v5 &&& 65280) >>> 8,
        v6 &&& 255, (v6 &&& 65280) >>> 8, v7 &&& 255, (v7 &&& 65280) >>> 8] = _
    rw [low_byte v0, high_byte v0 b0, low_byte v1, high_byte v1 b1,
      low_byte v2, high_byte v2 b2, low_byte v3, high_byte v3 b3,
      low_byte v4, high_byte v4 b4, low_byte v5, high_byte v5 b5,
      low_byte v6, high_byte v6 b6, low_byte v7, high_byte v7 b7]
  refine ⟨?_, by rw [hd2]; rfl, ?_⟩
  · rw [hd2]
    show [v0 % 256 + 256 * (v0 / 256), v1 % 256 + 256 * (v1 / 256),
          v2 % 256 + 256 * (v2 / 256), v3 % 256 + 256 * (v3 / 256),
          v4 % 256 + 256 * (v4 / 256), v5 % 256 + 256 * (v5 / 256),
          v6 % 256 + 256 * (v6 / 256), v7 % 256 + 256 * (v7 / 256)] = _
    simp only [List.cons.injEq, and_true]
    omega
  · intro i hi
    interval_cases i <;> simp [hd2]

/-- Witness for C4 at a concrete short-password array. -/
theorem c4_witness :
    undistill (distill [0, 1, 65535, 256, 2, 3, 4, 5]) = [0, 1, 65535, 256, 2, 3, 4, 5] :=
  (c4_distill_bijection [0, 1, 65535, 256, 2, 3, 4, 5] (by decide) (by decide)).1

/-! ## C2 -/

theorem fitBytes_length (n : Nat) (l : List Nat) : (fitBytes n l).length = n := by
  simp [fitBytes]

theorem fitBytes_of_length {n : Nat} {l : List Nat} (h : l.length = n) :
    fitBytes n l = l := by
  unfold fitBytes
  rw [← h, List.take_left]

theorem fitBytes_fitBytes (n : Nat) (l : List Nat) :
    fitBytes n (fitBytes n l) = fitBytes n l :=
  fitBytes_of_length (fitBytes_length n l)

theorem u64le_length (n : Nat) : (u64le n).length = 8 := by
  simp [u64le]

theorem serializeState_length (st : ChainHashState) :
    (serializeState st).length = 88 := by
  simp [serializeState, fitBytes_length, u64le_length]

theorem chain_loop_derive_iter (sha : List Nat → List Nat) (R S : List Nat) :
    ∀ (n : Nat) (st : ChainHashState),
      fitBytes 32 st.password_hash = R → fitBytes 16 st.salt = S →
      (chain_loop sha n st).updated_hash
        = derive_iter sha R S n st.updated_hash st.hash_count := by
  intro n
  induction n with
  | zero => intro st h1 h2; rfl
  | succ n ih =>
    intro st h1 h2
    simp only [chain_loop, derive_iter]
    rw [ih (chain_step sha st) h1 h2]
    subst h1 h2
    rfl

theorem chain_loop_uh (sha : List Nat → List Nat) (R S : List Nat) (n : Nat)
    (st : ChainHashState) (u : List Nat) (c : Nat)
    (h1 : fitBytes 32 st.password_hash = R) (h2 : fitBytes 16 st.salt = S)
    (hu : st.updated_hash = u) (hc : st.hash_count = c) :
    (chain_loop sha n st).updated_hash = derive_iter sha R S n u c := by
  subst hu hc
  exact chain_loop_derive_iter sha R S n st h1 h2

theorem derive_iter_length (sha : List Nat → List Nat) (running salt : List Nat) :
    ∀ (n : Nat) (u : List Nat) (c : Nat), u.length = 32 →
      (derive_iter sha running salt n u c).length = 32 := by
  intro n
  induction n with
  | zero => intro u c h; exact h
  | succ n ih =>
    intro u c _
    exact ih _ _ (fitBytes_length 32 _)

theorem chain_trace_length (sha : List Nat → List Nat) :
    ∀ (n : Nat) (st : ChainHashState), (chain_trace sha n st).length = n := by
  intro n
  induction n with
  | zero => intro st; rfl
  | succ n ih =>
    intro st
    simp only [chain_trace, List.length_cons, ih]

theorem chain_trace_elem_length (sha : List Nat → List Nat) :
    ∀ (n : Nat) (st : ChainHashState), ∀ x ∈ chain_trace sha n st, x.length = 88 := by
  intro n
  induction n with
  | zero => intro st x hx; simp [chain_trace] at hx
  | succ n ih =>
    intro st x hx
    simp only [chain_trace, List.mem_cons] at hx
    rcases hx with rfl | hx
    · exact serializeState_length st
    · exact ih _ x hx

/-- C2: the KDF first hashes only the 16-byte distilled buffer, then
performs exactly 1048576 = 2^20 iterations with no early exit, each
hashing the full 88-byte working state and then incrementing the 64-bit
counter, and returns the final updated hash: the source `chain_hash`
computes exactly the KDF written in spec section 4.4 (`derive_spec`),
its loop issues exactly 1048576 SHA-256 calls, and every such call
hashes an 88-byte input. -/
theorem c2_chain_hash_spec (sha : List Nat → List Nat) (recovery_key salt : List Nat) :
    chain_hash sha recovery_key salt = derive_spec sha recovery_key salt ∧
    (chain_trace sha 1048576 (chain_init sha recovery_key salt)).length = 1048576 ∧
    (∀ x ∈ chain_trace sha 1048576 (chain_init sha recovery_key salt), x.length = 88) ∧
    (chain_init sha recovery_key salt).password_hash
      = fitBytes 32 (sha (fitBytes 16 recovery_key)) ∧
    (fitBytes 16 recovery_key).length = 16 := by
  refine ⟨?_, chain_trace_length sha 1048576 _, chain_trace_elem_length sha 1048576 _,
    rfl, fitBytes_length 16 _⟩
  exact (congrArg (fitBytes 32)
      (chain_loop_uh sha (fitBytes 32 (sha (fitBytes 16 recovery_key)))
        (fitBytes 16 salt) 1048576 (chain_init sha recovery_key salt)
        (List.replicate 32 0) 0
        (fitBytes_fitBytes 32 (sha (fitBytes 16 recovery_key)))
        (fitBytes_fitBytes 16 salt) rfl rfl)).trans
    (fitBytes_of_length
      (derive_iter_length sha (fitBytes 32 (sha (fitBytes 16 recovery_key)))
        (fitBytes 16 salt) 1048576 (List.replicate 32 0) 0 (by simp)))

/-! ## C10 -/

theorem extract_block_getD (rp : List Nat) (i j : Nat) (hj : j < 6) :
    (extract_block rp i).getD j 0 = rp.getD (7 * i + j) 0 := by
  unfold extract_block
  simp [List.getD_eq_getElem?_getD, List.getElem?_take, hj, List.getElem?_drop]

theorem extract_block_length (rp : List Nat) (i : Nat) (h : 7 * i + 6 ≤ rp.length) :
    (extract_block rp i).length = 6 := by
  simp [extract_block]
  omega

/-- Extensionality through `getD` for 6-element lists. -/
theorem ext_getD_six {l1 l2 : List Nat} (h1 : l1.length = 6) (h2 : l2.length = 6)
    (h : ∀ j, j < 6 → l1.getD j 0 = l2.getD j 0) : l1 = l2 := by
  obtain ⟨a0, a1, a2, a3, a4, a5, rfl⟩ := list_len_six l1 h1
  obtain ⟨c0, c1, c2, c3, c4, c5, rfl⟩ := list_len_six l2 h2
  have q0 := h 0 (by omega)
  have q1 := h 1 (by omega)
  have q2 := h 2 (by omega)
  have q3 := h 3 (by omega)
  have q4 := h 4 (by omega)
  have q5 := h 5 (by omega)
  simp only [List.getD_cons_zero, List.getD_cons_succ] at q0 q1 q2 q3 q4 q5
  rw [q0, q1, q2, q3, q4, q5]

theorem extract_block_eq_of_agree {p q : List Nat} {i : Nat}
    (hp : 7 * i + 6 ≤ p.length) (hq : 7 * i + 6 ≤ q.length)
    (h : ∀ j, j < 6 → q.getD (7 * i + j) 0 = p.getD (7 * i + j) 0) :
    extract_block q i = extract_block p i := by
  apply ext_getD_six (extract_block_length _ _ hq) (extract_block_length _ _ hp)
  intro n hn
  rw [extract_block_getD _ _ _ hn, extract_block_getD _ _ _ hn, h n hn]

theorem first_invalid_go_all (rp : List Nat) :
    ∀ (n k : Nat),
      (∀ i, k ≤ i → i < k + n → (valid_block (extract_block rp i)).isSome = true) →
      first_invalid_go rp n k = none := by
  intro n
  induction n with
  | zero => intro k _; rfl
  | succ n ih =>
    intro k h
    unfold first_invalid_go
    rw [if_pos (h k le_rfl (by omega))]
    exact ih (k + 1) (fun i h1 h2 => h i (by omega) (by omega))

theorem first_invalid_go_none (rp : List Nat) :
    ∀ (n k : Nat), first_invalid_go rp n k = none →
      ∀ i, k ≤ i → i < k + n → (valid_block (extract_block rp i)).isSome = true := by
  intro n
  induction n with
  | zero => intro k _ i h1 h2; omega
  | succ n ih =>
    intro k h i h1 h2
    unfold first_invalid_go at h
    by_cases hk : (valid_block (extract_block rp k)).isSome = true
    · rcases Nat.eq_or_lt_of_le h1 with rfl | hlt
      · exact hk
      · rw [if_pos hk] at h
        exact ih (k + 1) h i hlt (by omega)
    · rw [if_neg hk] at h
      simp at h

theorem first_invalid_go_finds (rp : List Nat) :
    ∀ (n k b : Nat), k ≤ b → b < k + n →
      (∀ i, k ≤ i → i < b → (valid_block (extract_block rp i)).isSome = true) →
      valid_block (extract_block rp b) = none →
      first_invalid_go rp n k = some (b + 1) := by
  intro n
  induction n with
  | zero => intro k b h1 h2; omega
  | succ n ih =>
    intro k b h1 h2 hgood hbad
    unfold first_invalid_go
    rcases Nat.eq_or_lt_of_le h1 with rfl | hlt
    · rw [if_neg (by simp [hbad])]
    · rw [if_pos (hgood k le_rfl hlt)]
      exact ih (k + 1) b hlt (by omega) (fun i ha hb => hgood i (by omega) hb) hbad

/-- C10: the password validator never inspects the 7 separator
positions 6, 13, ..., 48.  Every 55-character string whose eight
6-character groups at offsets 0, 7, ..., 49 each pass block validation
is accepted, and any other 55-character string agreeing with it on all
block positions (i.e. differing only in separator characters) is
accepted as well — hyphens are not required at separator positions. -/
theorem c10_separators_ignored (p : List Nat) (hlen : p.length = 55)
    (_hnz : ∀ c ∈ p, c ≠ 0)
    (hall : ∀ i, i < 8 → (valid_block (extract_block p i)).isSome = true) :
    is_valid_key p = true ∧
    ∀ q : List Nat, q.length = 55 →
      (∀ i j, i < 8 → j < 6 → q.getD (7 * i + j) 0 = p.getD (7 * i + j) 0) →
      is_valid_key q = true := by
  have h1 : is_valid_key p = true := by
    unfold is_valid_key first_invalid
    rw [if_neg (by omega),
      first_invalid_go_all p 8 0 (fun i h0 h8 => hall i (by omega))]
    rfl
  refine ⟨h1, fun q hq hagree => ?_⟩
  have hblocks : ∀ i, i < 8 → extract_block q i = extract_block p i := by
    intro i hi
    exact extract_block_eq_of_agree (by omega) (by omega)
      (fun j hj => hagree i j hi hj)
  unfold is_valid_key first_invalid
  rw [if_neg (by omega),
    first_invalid_go_all q 8 0
      (fun i h0 h8 => by rw [hblocks i (by omega)]; exact hall i (by omega))]
  rfl

/-- Witness for C10: a password whose separators are all 'X' (88) is
accepted, with every block "000000". -/
theorem c10_witness :
    is_valid_key
      [48, 48, 48, 48, 48, 48, 88, 48, 48, 48, 48, 48, 48, 88,
       48, 48, 48, 48, 48, 48, 88, 48, 48, 48, 48, 48, 48, 88,
       48, 48, 48, 48, 48, 48, 88, 48, 48, 48, 48, 48, 48, 88,
       48, 48, 48, 48, 48, 48, 88, 48, 48, 48, 48, 48, 48] = true :=
  (c10_separators_ignored _ (by decide) (by decide) (by decide)).1

/-! ## C5 -/

theorem getD_set_self (l : List Nat) (i d : Nat) (h : i < l.length) :
    (l.set i d).getD i 0 = d := by
  simp [List.getD_eq_getElem?_getD, List.getElem?_set_self h]

theorem getD_set_ne (l : List Nat) {i j : Nat} (d : Nat) (h : i ≠ j) :
    (l.set i d).getD j 0 = l.getD j 0 := by
  simp [List.getD_eq_getElem?_getD, List.getElem?_set_ne h]

/-- Changing a single digit of an all-digit block that `valid_block`
accepts always breaks the divisibility-by-11 check: the new value
differs from the old by `delta * 10 ^ k` with `0 < |delta| ≤ 9` and
`10 ^ k ≡ ±1 (mod 11)`, so it is no longer a multiple of 11 and the
block is rejected. -/
theorem valid_block_single_change (B : List Nat) (hlen : B.length = 6)
    (hdig : ∀ c ∈ B, 48 ≤ c ∧ c ≤ 57) (hv : (valid_block B).isSome = true)
    (j : Nat) (hj : j < 6) (d : Nat) (hd : 48 ≤ d ∧ d ≤ 57)
    (hne : d ≠ B.getD j 0) :
    valid_block (B.set j d) = none := by
  obtain ⟨a0, a1, a2, a3, a4, a5, rfl⟩ := list_len_six B hlen
  have b0 := hdig a0 (by simp)
  have b1 := hdig a1 (by simp)
  have b2 := hdig a2 (by simp)
  have b3 := hdig a3 (by simp)
  have b4 := hdig a4 (by simp)
  have b5 := hdig a5 (by simp)
  have hVB : Int.tmod (strtolParse [a0, a1, a2, a3, a4, a5]) 11 = 0 := by
    by_contra hcon
    rw [valid_block_char _ (by simp), if_pos hcon] at hv
    simp at hv
  have hB : (((a0 : Int) - 48) * 100000 + ((a1 : Int) - 48) * 10000
      + ((a2 : Int) - 48) * 1000 + ((a3 : Int) - 48) * 100
      + ((a4 : Int) - 48) * 10 + ((a5 : Int) - 48)) % 11 = 0 := by
    rw [strtolParse_digits b0 b1 b2 b3 b4 b5,
      Int.tmod_eq_emod (by omega) (by norm_num)] at hVB
    exact hVB
  interval_cases j
  · simp only [List.getD_cons_zero] at hne
    show valid_block [d, a1, a2, a3, a4, a5] = none
    have hmod : Int.tmod (strtolParse [d, a1, a2, a3, a4, a5]) 11 ≠ 0 := by
      rw [strtolParse_digits hd b1 b2 b3 b4 b5,
        Int.tmod_eq_emod (by omega) (by norm_num)]
      omega
    rw [valid_block_char _ (by simp), if_pos hmod]
  · simp only [List.getD_cons_succ, List.getD_cons_zero] at hne
    show valid_block [a0, d, a2, a3, a4, a5] = none
    have hmod : Int.tmod (strtolParse [a0, d, a2, a3, a4, a5]) 11 ≠ 0 := by
      rw [strtolParse_digits b0 hd b2 b3 b4 b5,
        Int.tmod_eq_emod (by omega) (by norm_num)]
      omega
    rw [valid_block_char _ (by simp), if_pos hmod]
  · simp only [List.getD_cons_succ, List.getD_cons_zero] at hne
    show valid_block [a0, a1, d, a3, a4, a5] = none
    have hmod : Int.tmod (strtolParse [a0, a1, d, a3, a4, a5]) 11 ≠ 0 := by
      rw [strtolParse_digits b0 b1 hd b3 b4 b5,
        Int.tmod_eq_emod (by omega) (by norm_num)]
      omega
    rw [valid_block_char _ (by simp), if_pos hmod]
  · simp only [List.getD_cons_succ, List.getD_cons_zero] at hne
    show valid_block [a0, a1, a2, d, a4, a5] = none
    have hmod : Int.tmod (strtolParse [a0, a1, a2, d, a4, a5]) 11 ≠ 0 := by
      rw [strtolParse_digits b0 b1 b2 hd b4 b5,
        Int.tmod_eq_emod (by omega) (by norm_num)]
      omega
    rw [valid_block_char _ (by simp), if_pos hmod]
  · simp only [List.getD_cons_succ, List.getD_cons_zero] at hne
    show valid_block [a0, a1, a2, a3, d, a5] = none
    have hmod : Int.tmod (strtolParse [a0, a1, a2, a3, d, a5]) 11 ≠ 0 := by
      rw [strtolParse_digits b0 b1 b2 b3 hd b5,
        Int.tmod_eq_emod (by omega) (by norm_num)]
      omega
    rw [valid_block_char _ (by simp), if_pos hmod]
  · simp only [List.getD_cons_succ, List.getD_cons_zero] at hne
    show valid_block [a0, a1, a2, a3, a4, d] = none
    have hmod : Int.tmod (strtolParse [a0, a1, a2, a3, a4, d]) 11 ≠ 0 := by
      rw [strtolParse_digits b0 b1 b2 b3 b4 hd,
        Int.tmod_eq_emod (by omega) (by norm_num)]
      omega
    rw [valid_block_char _ (by simp), if_pos hmod]

/-- C5 counterexample: the claim fails as stated.  First, the
55-character password of all '0's is accepted, position 6 is a digit
character ('0'), yet changing it to '1' leaves the password accepted
(position 6 is a separator position that the validator never reads).
Second, even at a block position the claim fails for accepted passwords
containing non-digit block characters: the password whose first block
is the accepted byte sequence [122, 65, 134, 66, 48, 52] stays accepted
when its digit '0' at position 4 is changed to '3' (an `int8_t`
wrap-around in the checksum compensates, and `strtol` never reads that
position). -/
theorem c5_counterexample :
    (is_valid_key (List.replicate 55 48) = true ∧
      (List.replicate 55 48).getD 6 0 = 48 ∧
      is_valid_key ((List.replicate 55 48).set 6 49) = true) ∧
    (is_valid_key
        ([122, 65, 134, 66, 48, 52, 45] ++ List.replicate 48 48) = true ∧
      ([122, 65, 134, 66, 48, 52, 45] ++ List.replicate 48 48).getD 4 0 = 48 ∧
      is_valid_key
        (([122, 65, 134, 66, 48, 52, 45] ++ List.replicate 48 48).set 4 51) = true) := by
  constructor
  · refine ⟨by decide, by decide, by decide⟩
  · refine ⟨by decide, by decide, by decide⟩

/-- C5 amended: for every 55-character password accepted by the full
validator all of whose 48 block-position characters are ASCII digits,
changing exactly one block-position digit to a different digit makes
validation fail, and the failure is reported for exactly the block
containing the changed digit (all earlier blocks still pass and
validation short-circuits there); changes at the 7 separator positions
are not detected. -/
theorem c5_single_digit_error (p : List Nat) (hlen : p.length = 55)
    (hdig : ∀ i, i < 8 → ∀ j, j < 6 →
      48 ≤ p.getD (7 * i + j) 0 ∧ p.getD (7 * i + j) 0 ≤ 57)
    (hacc : is_valid_key p = true)
    (b j : Nat) (hb : b < 8) (hj : j < 6) (d : Nat)
    (hd : 48 ≤ d ∧ d ≤ 57) (hne : d ≠ p.getD (7 * b + j) 0) :
    is_valid_key (p.set (7 * b + j) d) = false ∧
    first_invalid (p.set (7 * b + j) d) = some (b + 1) := by
  have hpos : 7 * b + j < 55 := by omega
  have hall : ∀ i, i < 8 → (valid_block (extract_block p i)).isSome = true := by
    intro i hi
    unfold is_valid_key at hacc
    rw [if_neg (by omega)] at hacc
    have hnone : first_invalid p = none := by
      cases hfi : first_invalid p with
      | none => rfl
      | some v => rw [hfi] at hacc; simp at hacc
    exact first_invalid_go_none p 8 0 hnone i (by omega) (by omega)
  have hsame : ∀ i, i < 8 → i ≠ b →
      extract_block (p.set (7 * b + j) d) i = extract_block p i := by
    intro i hi hib
    apply extract_block_eq_of_agree (by omega) (by simp; omega)
    intro k hk
    exact getD_set_ne p d (by omega)
  have hblk : extract_block (p.set (7 * b + j) d) b = (extract_block p b).set j d := by
    apply ext_getD_six (extract_block_length _ _ (by simp; omega))
      (by rw [List.length_set]; exact extract_block_length _ _ (by omega))
    intro n hn
    rw [extract_block_getD _ _ _ hn]
    by_cases hnj : n = j
    · subst hnj
      rw [getD_set_self p (7 * b + n) d (by omega),
        getD_set_self (extract_block p b) n d
          (by rw [extract_block_length _ _ (by omega)]; omega)]
    · rw [getD_set_ne p d (by omega), getD_set_ne (extract_block p b) d
        (by omega), extract_block_getD _ _ _ hn]
  have hbad : valid_block (extract_block (p.set (7 * b + j) d) b) = none := by
    rw [hblk]
    apply valid_block_single_change (extract_block p b)
      (extract_block_length _ _ (by omega))
      ?_ (hall b hb) j hj d hd ?_
    · intro c hc
      obtain ⟨k, hk, rfl⟩ : ∃ k, k < 6 ∧ (extract_block p b).getD k 0 = c := by
        have hlen6 : (extract_block p b).length = 6 := extract_block_length _ _ (by omega)
        obtain ⟨k, hk1, hk2⟩ := List.getElem_of_mem hc
        refine ⟨k, by omega, ?_⟩
        simp [List.getD_eq_getElem?_getD, List.getElem?_eq_getElem hk1, hk2]
      rw [extract_block_getD _ _ _ hk]
      exact hdig b hb k hk
    · rw [extract_block_getD _ _ _ hj]
      exact hne
  have hfi : first_invalid (p.set (7 * b + j) d) = some (b + 1) := by
    apply first_invalid_go_finds _ 8 0 b (by omega) (by omega) ?_ hbad
    intro i h0 hib
    rw [hsame i (by omega) (by omega)]
    exact hall i (by omega)
  refine ⟨?_, hfi⟩
  unfold is_valid_key
  rw [if_neg (by simp; omega), hfi]
  rfl

/-- Witness for the amended C5: on the all-'0's password, changing the
digit at block 1, offset 5 to '1' makes validation fail at block 1. -/
theorem c5_witness :
    is_valid_key ((List.replicate 55 48).set 5 49) = false ∧
    first_invalid ((List.replicate 55 48).set 5 49) = some 1 :=
  c5_single_digit_error (List.replicate 55 48) (by decide) (by decide) (by decide)
    0 5 (by decide) (by decide) 49 (by decide) (by decide)

/-! ## C6 -/

/-- Hyphen characters are skipped by the state machine without touching
any state, so a run is equivalent to a run on the hyphen-free input. -/
theorem prompt_run_filter :
    ∀ (input : List Nat) (bn idx : Nat) (digits acc : List Nat),
      prompt_run input bn idx digits acc
        = prompt_run (input.filter (fun c => c != 45)) bn idx digits acc := by
  intro input
  induction input with
  | nil => intro bn idx digits acc; rfl
  | cons c rest ih =>
    intro bn idx digits acc
    by_cases hc : c = 45
    · subst hc
      rw [List.filter_cons]
      simp only [bne_self_eq_false, Bool.false_eq_true, if_false]
      show prompt_run (45 :: rest) bn idx digits acc = _
      rw [prompt_run, if_pos rfl]
      exact ih bn idx digits acc
    · rw [List.filter_cons]
      have hbne : (c != 45) = true := by simp [hc]
      rw [if_pos hbne]
      show prompt_run (c :: rest) bn idx digits acc
        = prompt_run (c :: rest.filter (fun c => c != 45)) bn idx digits acc
      rw [prompt_run, prompt_run]
      split_ifs <;> first | rfl | apply ih

/-- One digit keystroke of the state machine. -/
theorem prompt_run_digit (c : Nat) (hc : 48 ≤ c ∧ c ≤ 57) (rest : List Nat)
    (bn idx : Nat) (digits acc : List Nat) :
    prompt_run (c :: rest) bn idx digits acc =
      if idx + 1 ≥ 6 then
        (if (valid_block (digits ++ [c])).isSome = true then
          (if bn ≥ 8 then some (acc ++ digits ++ [c])
           else prompt_run rest (bn + 1) 0 [] (acc ++ digits ++ [c] ++ [45]))
         else prompt_run rest bn 0 [] acc)
      else prompt_run rest bn (idx + 1) (digits ++ [c]) acc := by
  have h45 : ¬ c = 45 := by omega
  have hbs : ¬ (c = 8 ∨ c = 127) := by omega
  have hdg : isDigitC c = true := by
    simp [isDigitC]
    omega
  rw [prompt_run, if_neg h45, if_neg hbs, if_pos hdg]

/-- Typing the six digits of a block that `valid_block` accepts from a
fresh block state commits the block: either the machine succeeds (on
the eighth block) or it appends the block plus a hyphen and moves on. -/
theorem prompt_run_block (B : List Nat) (h6 : B.length = 6)
    (hdig : ∀ c ∈ B, 48 ≤ c ∧ c ≤ 57) (hv : (valid_block B).isSome = true)
    (rest : List Nat) (bn : Nat) (acc : List Nat) :
    prompt_run (B ++ rest) bn 0 [] acc =
      if bn ≥ 8 then some (acc ++ B)
      else prompt_run rest (bn + 1) 0 [] (acc ++ B ++ [45]) := by
  obtain ⟨b0, b1, b2, b3, b4, b5, rfl⟩ := list_len_six B h6
  have v0 := hdig b0 (by simp)
  have v1 := hdig b1 (by simp)
  have v2 := hdig b2 (by simp)
  have v3 := hdig b3 (by simp)
  have v4 := hdig b4 (by simp)
  have v5 := hdig b5 (by simp)
  simp only [List.cons_append, List.nil_append]
  rw [prompt_run_digit b0 v0, if_neg (by omega)]
  simp only [List.nil_append]
  rw [prompt_run_digit b1 v1, if_neg (by omega)]
  simp only [List.cons_append, List.nil_append]
  rw [prompt_run_digit b2 v2, if_neg (by omega)]
  simp only [List.cons_append, List.nil_append]
  rw [prompt_run_digit b3 v3, if_neg (by omega)]
  simp only [List.cons_append, List.nil_append]
  rw [prompt_run_digit b4 v4, if_neg (by omega)]
  simp only [List.cons_append, List.nil_append]
  rw [prompt_run_digit b5 v5, if_pos (by omega)]
  simp only [List.cons_append, List.nil_append]
  rw [if_pos hv]
  simp [List.append_assoc]

/-- C6: feeding the state machine the 48 digits of a valid recovery
password, with hyphens interspersed anywhere (hyphens are ignored and
not counted toward the cursor), terminates in success and produces
exactly the 55-character normalized password: the eight blocks joined
by hyphens at the 7 fixed separator positions. -/
theorem c6_interactive_entry (bs : List (List Nat)) (hlen : bs.length = 8)
    (hblocks : ∀ B ∈ bs, B.length = 6 ∧ (∀ c ∈ B, 48 ≤ c ∧ c ≤ 57) ∧
      (valid_block B).isSome = true)
    (input : List Nat)
    (hinput : input.filter (fun c => c != 45) = bs.flatten) :
    prompt_rp input = some (List.intercalate [45] bs) ∧
    (List.intercalate [45] bs).length = 55 := by
  obtain ⟨B1, B2, B3, B4, B5, B6, B7, B8, rfl⟩ := list_len_eight bs hlen
  have h1 := hblocks B1 (by simp)
  have h2 := hblocks B2 (by simp)
  have h3 := hblocks B3 (by simp)
  have h4 := hblocks B4 (by simp)
  have h5 := hblocks B5 (by simp)
  have h6 := hblocks B6 (by simp)
  have h7 := hblocks B7 (by simp)
  have h8 := hblocks B8 (by simp)
  have hinter : List.intercalate [45] [B1, B2, B3, B4, B5, B6, B7, B8]
      = B1 ++ [45] ++ (B2 ++ ([45] ++ (B3 ++ ([45] ++ (B4 ++ ([45]
          ++ (B5 ++ ([45] ++ (B6 ++ ([45] ++ (B7 ++ ([45] ++ B8)))))))))))) := by
    simp [List.intercalate, List.intersperse, List.append_assoc]
  constructor
  · unfold prompt_rp
    rw [prompt_run_filter, hinput]
    simp only [List.flatten_cons, List.flatten_nil]
    rw [prompt_run_block B1 h1.1 h1.2.1 h1.2.2 _ 1 [], if_neg (by omega)]
    rw [prompt_run_block B2 h2.1 h2.2.1 h2.2.2 _ _ _, if_neg (by omega)]
    rw [prompt_run_block B3 h3.1 h3.2.1 h3.2.2 _ _ _, if_neg (by omega)]
    rw [prompt_run_block B4 h4.1 h4.2.1 h4.2.2 _ _ _, if_neg (by omega)]
    rw [prompt_run_block B5 h5.1 h5.2.1 h5.2.2 _ _ _, if_neg (by omega)]
    rw [prompt_run_block B6 h6.1 h6.2.1 h6.2.2 _ _ _, if_neg (by omega)]
    rw [prompt_run_block B7 h7.1 h7.2.1 h7.2.2 _ _ _, if_neg (by omega)]
    rw [prompt_run_block B8 h8.1 h8.2.1 h8.2.2 _ _ _, if_pos (by omega)]
    rw [hinter]
    simp [List.append_assoc]
  · rw [hinter]
    simp [h1.1, h2.1, h3.1, h4.1, h5.1, h6.1, h7.1, h8.1]

/-- Witness for C6: a scripted input of the 48 digits of the all-'0's
password with hyphens interspersed yields the normalized password. -/
theorem c6_witness :
    prompt_rp
      ([45, 48, 48, 48, 48, 48, 48, 45, 45] ++ List.replicate 42 48 ++ [45])
      = some (List.intercalate [45]
          [[48, 48, 48, 48, 48, 48], [48, 48, 48, 48, 48, 48],
           [48, 48, 48, 48, 48, 48], [48, 48, 48, 48, 48, 48],
           [48, 48, 48, 48, 48, 48], [48, 48, 48, 48, 48, 48],
           [48, 48, 48, 48, 48, 48], [48, 48, 48, 48, 48, 48]]) :=
  (c6_interactive_entry
    [[48, 48, 48, 48, 48, 48], [48, 48, 48, 48, 48, 48],
     [48, 48, 48, 48, 48, 48], [48, 48, 48, 48, 48, 48],
     [48, 48, 48, 48, 48, 48], [48, 48, 48, 48, 48, 48],
     [48, 48, 48, 48, 48, 48], [48, 48, 48, 48, 48, 48]]
    (by decide) (by decide)
    ([45, 48, 48, 48, 48, 48, 48, 45, 45] ++ List.replicate 42 48 ++ [45])
    (by decide)).1

end Dislocker
